import Mathlib

/-!
Verification of the `spm_to_graph` tool (src/main.rs): a shallow embedding of
the manifest data model, the JSON schema parser derived by serde, the DOT
statement builder, and the output dispatch, together with theorems settling
the specification's claims.
-/

namespace SpmToGraph

/-! ## Data model (src/main.rs lines 9-133) -/

/-- `enum DependencyType` (main.rs 31-36). -/
inductive DependencyType
  | SourceControl
deriving DecidableEq, Repr

/-- `struct Range` (main.rs 46-50). -/
structure Range where
  lower_bound : String
  upper_bound : String
deriving DecidableEq, Repr

/-- `struct Requirement` (main.rs 38-44). -/
structure Requirement where
  range : Option (List Range)
  branch : Option (List String)
deriving DecidableEq, Repr

/-- `struct Dependency` (main.rs 22-29). -/
structure Dependency where
  identity : String
  requirement : Requirement
  dependency_type : DependencyType
  url : String
deriving DecidableEq, Repr

/-- `struct Platform` (main.rs 52-56). -/
structure Platform where
  name : String
  version : String
deriving DecidableEq, Repr

/-- `enum Library` (main.rs 75-79). -/
inductive Library
  | Automatic
deriving DecidableEq, Repr

/-- A JSON value, the shape `serde_json` parses subprocess stdout into.
Numbers are irrelevant to every field of the schema (all are strings,
arrays, objects or enums) but are kept for `serde_json::Value` fields. -/
inductive Json
  | null
  | bool (b : Bool)
  | num (n : Int)
  | str (s : String)
  | arr (elems : List Json)
  | obj (fields : List (String × Json))

/-- `struct TypeClass` (main.rs 66-73); the `macro`-renamed field is
`typeMacro` here because its Rust name is not a legal Lean identifier. -/
structure TypeClass where
  library : Option (List Library)
  executable : Option Json
  typeMacro : Option Json

/-- `struct Product` (main.rs 58-64). -/
structure Product where
  name : String
  targets : List String
  product_type : TypeClass

/-- `enum ModuleType` (main.rs 101-107). -/
inductive ModuleType
  | ClangTarget
  | SwiftTarget
deriving DecidableEq, Repr

/-- `struct Copy` (main.rs 123-124). -/
structure CopyRule where
deriving DecidableEq, Repr

/-- `struct Rule` (main.rs 115-121). -/
structure Rule where
  copy : Option CopyRule
  process : Option CopyRule
deriving DecidableEq, Repr

/-- `struct Resource` (main.rs 109-113). -/
structure Resource where
  path : String
  rule : Rule
deriving DecidableEq, Repr

/-- `enum TargetType` (main.rs 126-133). -/
inductive TargetType
  | Executable
  | Library
  | Macro
  | Test
deriving DecidableEq, Repr

/-- `struct Target` (main.rs 81-99). -/
structure Target where
  c99_name : String
  module_type : ModuleType
  name : String
  path : String
  product_memberships : Option (List String)
  sources : List String
  target_type : TargetType
  product_dependencies : Option (List String)
  target_dependencies : Option (List String)
  resources : Option (List Resource)
deriving DecidableEq, Repr

/-- `struct Package` (main.rs 9-20). -/
structure Package where
  dependencies : List Dependency
  manifest_display_name : String
  name : String
  path : String
  platforms : List Platform
  products : List Product
  swift_languages_versions : List String
  targets : List Target
  tools_version : String

/-- `struct Cli` (main.rs 137-152): two optional positionals and two flags. -/
structure Cli where
  input : Option String
  output : Option String
  skip_test_targets : Bool
  skip_product_dependencies : Bool
deriving DecidableEq, Repr

/-! ## Graph identifiers (tabbycat `Identity::id`)

The `tabbycat` crate is an external dependency whose source is not part of
this repository; only its call sites are. -/

/-- A character legal inside a bare DOT identifier. -/
def isIdChar (c : Char) : Bool := c.isAlphanum || c = '_'

/-- Modelled from the spec: a name is a syntactically valid graph identifier
unless it contains "characters illegal in the textual graph format"; a bare
DOT identifier is a nonempty alphanumeric/underscore word not starting with
a digit. The validator lives in the external `tabbycat` crate
(`Identity::id`), not under src/. -/
def validId (s : String) : Bool :=
  match s.data with
  | [] => false
  | c :: cs => (c.isAlpha || c = '_') && cs.all isIdChar

/-- `Identity::id(&name)` (tabbycat): `Ok` exactly on valid identifiers;
the program always calls `.unwrap()` on the result. -/
def Identity.id (s : String) : Except String String :=
  if validId s then .ok s else .error ("invalid identifier: " ++ s)

/-! ## Graph statements (tabbycat `StmtList`, as used in main.rs 165-223) -/

/-- The attribute values the program uses: `color(Color::Black)`,
`color(Color::Blue)`, `shape(Shape::Box)`. -/
inductive Color
  | Black
  | Blue
deriving DecidableEq, Repr

inductive Shape
  | Box
deriving DecidableEq, Repr

inductive Attr
  | color (c : Color)
  | shape (s : Shape)
deriving DecidableEq, Repr

abbrev AttrList := List Attr

/-- A DOT statement as built by `StmtList::add_node` / `add_edge`; the
`port` argument of `add_node` is always `None` in this program and is
omitted. `add_node` and `add_edge` append, they never deduplicate. -/
inductive Stmt
  | node (id : String) (attrs : Option AttrList)
  | edge (head tail : String)
deriving DecidableEq, Repr

/-- Attributes given to every target node and every target-dependency node
(main.rs 176-179, 186-190): black color, box shape. -/
def internalAttrs : AttrList := [.color .Black, .shape .Box]

/-- Attributes given to every product-dependency node (main.rs 203-207):
blue color, box shape. -/
def externalAttrs : AttrList := [.color .Blue, .shape .Box]

/-- The inner loop over `target.target_dependencies.unwrap_or_default()`
(main.rs 182-197): for each dependency name, a node statement styled
internal and an edge statement from the target to it, each name passing
through `Identity::id(..).unwrap()`. -/
def targetDepStmts (tname : String) : List String → Except String (List Stmt)
  | [] => .ok []
  | d :: rest =>
    match Identity.id d with
    | .error e => .error e
    | .ok did =>
      match Identity.id tname with
      | .error e => .error e
      | .ok tid =>
        match targetDepStmts tname rest with
        | .error e => .error e
        | .ok more => .ok (Stmt.node did (some internalAttrs) :: Stmt.edge tid did :: more)

/-- The inner loop over `target.product_dependencies.unwrap_or_default()`
(main.rs 199-214): for each product name, a node statement styled external
and an edge statement from the target to it. -/
def productDepStmts (tname : String) : List String → Except String (List Stmt)
  | [] => .ok []
  | p :: rest =>
    match Identity.id p with
    | .error e => .error e
    | .ok pid =>
      match Identity.id tname with
      | .error e => .error e
      | .ok tid =>
        match productDepStmts tname rest with
        | .error e => .error e
        | .ok more => .ok (Stmt.node pid (some externalAttrs) :: Stmt.edge tid pid :: more)

/-- The skip condition of main.rs 168:
`cli.skip_test_targets && target.target_type == TargetType::Test`. -/
def skipped (cli : Cli) (t : Target) : Bool :=
  cli.skip_test_targets && t.target_type = .Test

/-- The guarded product-dependency block (main.rs 198-215): nothing when
`skip_product_dependencies` is set, else the product statements. -/
def prodStmtsOf (cli : Cli) (t : Target) : Except String (List Stmt) :=
  if cli.skip_product_dependencies then .ok []
  else productDepStmts t.name (t.product_dependencies.getD [])

/-- One iteration of the `for target in package.targets` loop
(main.rs 167-216): skip test targets when requested, otherwise emit the
target's own node followed by its dependency statements. -/
def targetStmts (cli : Cli) (t : Target) : Except String (List Stmt) :=
  if skipped cli t then .ok []
  else
    match Identity.id t.name with
    | .error e => .error e
    | .ok tid =>
      match targetDepStmts t.name (t.target_dependencies.getD []) with
      | .error e => .error e
      | .ok depS =>
        match prodStmtsOf cli t with
        | .error e => .error e
        | .ok prodS => .ok (Stmt.node tid (some internalAttrs) :: depS ++ prodS)

/-- The whole loop body of main.rs 165-216: the accumulated `StmtList`. -/
def buildStatements (cli : Cli) : List Target → Except String (List Stmt)
  | [] => .ok []
  | t :: ts =>
    match targetStmts cli t with
    | .error e => .error e
    | .ok s =>
      match buildStatements cli ts with
      | .error e => .error e
      | .ok rest => .ok (s ++ rest)

/-- `tabbycat::GraphType` as used here: `DiGraph`. -/
inductive GraphType
  | Graph
  | DiGraph
deriving DecidableEq, Repr

/-- The value built by `GraphBuilder::default().graph_type(DiGraph)
.strict(false).id(..).stmts(..).build().unwrap()` (main.rs 217-223). -/
structure Graph where
  graph_type : GraphType
  strict : Bool
  id : String
  stmts : List Stmt
deriving DecidableEq, Repr

/-- main.rs 165-223: build the statement list from the targets, then the
graph value, whose identifier is `Identity::id(&package.name).unwrap()`. -/
def buildGraph (cli : Cli) (package : Package) : Except String Graph :=
  match buildStatements cli package.targets with
  | .error e => .error e
  | .ok statements =>
    match Identity.id package.name with
    | .error e => .error e
    | .ok gid =>
      .ok { graph_type := .DiGraph, strict := false, id := gid, stmts := statements }

/-! ## Derived notions about the built statement list -/

/-- How many times a name occurs in a list of names. -/
def countNames : List String → String → Nat
  | [], _ => 0
  | x :: xs, n => (if x = n then 1 else 0) + countNames xs n

/-- How many node statements carry a given identifier. -/
def nodeCount : List Stmt → String → Nat
  | [], _ => 0
  | .node m _ :: rest, n => (if m = n then 1 else 0) + nodeCount rest n
  | .edge _ _ :: rest, n => nodeCount rest n

/-- The names one loop iteration passes to `Identity::id` for node
insertion: none for a skipped test target, else the target's own name, its
target-dependency names, and (unless suppressed) its product-dependency
names. -/
def collectedTargetNames (cli : Cli) (t : Target) : List String :=
  if skipped cli t then []
  else
    t.name ::
      (t.target_dependencies.getD [] ++
        (if cli.skip_product_dependencies then [] else t.product_dependencies.getD []))

/-- The node-insertion names over a whole target list, in loop order. -/
def collectedTargetsNames (cli : Cli) : List Target → List String
  | [] => []
  | t :: ts => collectedTargetNames cli t ++ collectedTargetsNames cli ts

/-- Every name the program feeds to `Identity::id(..).unwrap()` while
building the graph: the node-insertion names plus the package name used as
the graph identifier. (Edge statements reuse node names.) -/
def collectedNames (cli : Cli) (package : Package) : List String :=
  collectedTargetsNames cli package.targets ++ [package.name]

/-! ## Manifest parsing (serde derive semantics for the structs above)

`serde_json::from_slice::<Package>` (main.rs 163) fails on a field the
struct declares without `Option` when it is missing; `Option` fields
default to `None` when missing or `null`; unknown fields are ignored. -/

/-- Field lookup in a JSON object (first occurrence), `None` otherwise. -/
def Json.getField (j : Json) (key : String) : Option Json :=
  match j with
  | .obj fields => fields.lookup key
  | _ => none

/-- serde: a `String` field deserializes only from a JSON string. -/
def parseString : Json → Except String String
  | .str s => .ok s
  | _ => .error "expected string"

/-- serde: a `Vec<T>` deserializes elementwise from a JSON array. -/
def parseElems (p : Json → Except String α) : List Json → Except String (List α)
  | [] => .ok []
  | x :: xs =>
    match p x with
    | .error e => .error e
    | .ok a =>
      match parseElems p xs with
      | .error e => .error e
      | .ok rest => .ok (a :: rest)

def parseArray (p : Json → Except String α) : Json → Except String (List α)
  | .arr xs => parseElems p xs
  | _ => .error "expected array"

/-- A required (non-`Option`) struct field: missing means a hard error. -/
def reqField (j : Json) (key : String) (p : Json → Except String α) : Except String α :=
  match j.getField key with
  | none => .error ("missing field " ++ key)
  | some v => p v

/-- An `Option<T>` struct field: missing or `null` is `None`. -/
def optField (j : Json) (key : String) (p : Json → Except String α) : Except String (Option α) :=
  match j.getField key with
  | none => .ok none
  | some .null => .ok none
  | some v =>
    match p v with
    | .error e => .error e
    | .ok a => .ok (some a)

def DependencyType.fromJson : Json → Except String DependencyType
  | .str "sourceControl" => .ok .SourceControl
  | _ => .error "unknown dependency type"

def Library.fromJson : Json → Except String Library
  | .str "automatic" => .ok .Automatic
  | _ => .error "unknown library kind"

def ModuleType.fromJson : Json → Except String ModuleType
  | .str "ClangTarget" => .ok .ClangTarget
  | .str "SwiftTarget" => .ok .SwiftTarget
  | _ => .error "unknown module type"

def TargetType.fromJson : Json → Except String TargetType
  | .str "executable" => .ok .Executable
  | .str "library" => .ok .Library
  | .str "macro" => .ok .Macro
  | .str "test" => .ok .Test
  | _ => .error "unknown target type"

def Range.fromJson (j : Json) : Except String Range :=
  match reqField j "lower_bound" parseString with
  | .error e => .error e
  | .ok lo =>
    match reqField j "upper_bound" parseString with
    | .error e => .error e
    | .ok hi => .ok { lower_bound := lo, upper_bound := hi }

def Requirement.fromJson (j : Json) : Except String Requirement :=
  match optField j "range" (parseArray Range.fromJson) with
  | .error e => .error e
  | .ok r =>
    match optField j "branch" (parseArray parseString) with
    | .error e => .error e
    | .ok b => .ok { range := r, branch := b }

def Dependency.fromJson (j : Json) : Except String Dependency :=
  match reqField j "identity" parseString with
  | .error e => .error e
  | .ok ident =>
    match reqField j "requirement" Requirement.fromJson with
    | .error e => .error e
    | .ok req =>
      match reqField j "type" DependencyType.fromJson with
      | .error e => .error e
      | .ok dt =>
        match reqField j "url" parseString with
        | .error e => .error e
        | .ok u => .ok { identity := ident, requirement := req, dependency_type := dt, url := u }

def Platform.fromJson (j : Json) : Except String Platform :=
  match reqField j "name" parseString with
  | .error e => .error e
  | .ok n =>
    match reqField j "version" parseString with
    | .error e => .error e
    | .ok v => .ok { name := n, version := v }

def TypeClass.fromJson (j : Json) : Except String TypeClass :=
  match optField j "library" (parseArray Library.fromJson) with
  | .error e => .error e
  | .ok lib =>
    match optField j "executable" (fun v => .ok v) with
    | .error e => .error e
    | .ok ex =>
      match optField j "macro" (fun v => .ok v) with
      | .error e => .error e
      | .ok m => .ok { library := lib, executable := ex, typeMacro := m }

def Product.fromJson (j : Json) : Except String Product :=
  match reqField j "name" parseString with
  | .error e => .error e
  | .ok n =>
    match reqField j "targets" (parseArray parseString) with
    | .error e => .error e
    | .ok ts =>
      match reqField j "type" TypeClass.fromJson with
      | .error e => .error e
      | .ok ty => .ok { name := n, targets := ts, product_type := ty }

def CopyRule.fromJson : Json → Except String CopyRule
  | .obj _ => .ok {}
  | _ => .error "expected map"

def Rule.fromJson (j : Json) : Except String Rule :=
  match optField j "copy" CopyRule.fromJson with
  | .error e => .error e
  | .ok c =>
    match optField j "process" CopyRule.fromJson with
    | .error e => .error e
    | .ok p => .ok { copy := c, process := p }

def Resource.fromJson (j : Json) : Except String Resource :=
  match reqField j "path" parseString with
  | .error e => .error e
  | .ok p =>
    match reqField j "rule" Rule.fromJson with
    | .error e => .error e
    | .ok r => .ok { path := p, rule := r }

def Target.fromJson (j : Json) : Except String Target :=
  match reqField j "c99name" parseString with
  | .error e => .error e
  | .ok c99 =>
    match reqField j "module_type" ModuleType.fromJson with
    | .error e => .error e
    | .ok mt =>
      match reqField j "name" parseString with
      | .error e => .error e
      | .ok n =>
        match reqField j "path" parseString with
        | .error e => .error e
        | .ok p =>
          match optField j "product_memberships" (parseArray parseString) with
          | .error e => .error e
          | .ok pm =>
            match reqField j "sources" (parseArray parseString) with
            | .error e => .error e
            | .ok srcs =>
              match reqField j "type" TargetType.fromJson with
              | .error e => .error e
              | .ok tt =>
                match optField j "product_dependencies" (parseArray parseString) with
                | .error e => .error e
                | .ok pd =>
                  match optField j "target_dependencies" (parseArray parseString) with
                  | .error e => .error e
                  | .ok td =>
                    match optField j "resources" (parseArray Resource.fromJson) with
                    | .error e => .error e
                    | .ok rs =>
                      .ok { c99_name := c99, module_type := mt, name := n, path := p,
                            product_memberships := pm, sources := srcs, target_type := tt,
                            product_dependencies := pd, target_dependencies := td,
                            resources := rs }

def Package.fromJson (j : Json) : Except String Package :=
  match reqField j "dependencies" (parseArray Dependency.fromJson) with
  | .error e => .error e
  | .ok deps =>
    match reqField j "manifest_display_name" parseString with
    | .error e => .error e
    | .ok mdn =>
      match reqField j "name" parseString with
      | .error e => .error e
      | .ok n =>
        match reqField j "path" parseString with
        | .error e => .error e
        | .ok p =>
          match reqField j "platforms" (parseArray Platform.fromJson) with
          | .error e => .error e
          | .ok pls =>
            match reqField j "products" (parseArray Product.fromJson) with
            | .error e => .error e
            | .ok prods =>
              match reqField j "swift_languages_versions" (parseArray parseString) with
              | .error e => .error e
              | .ok slv =>
                match reqField j "targets" (parseArray Target.fromJson) with
                | .error e => .error e
                | .ok ts =>
                  match reqField j "tools_version" parseString with
                  | .error e => .error e
                  | .ok tv =>
                    .ok { dependencies := deps, manifest_display_name := mdn, name := n,
                          path := p, platforms := pls, products := prods,
                          swift_languages_versions := slv, targets := ts,
                          tools_version := tv }

/-! ## Output path inspection (Rust `std::path`, main.rs 228-234) -/

/-- The characters of a path's final component (after the last `/`). -/
def fileNameChars (cs : List Char) : List Char :=
  (cs.reverse.takeWhile (fun c => c ≠ '/')).reverse

/-- The characters after the last `.` of a list, `none` when it has no `.`. -/
def extAfterLastDot : List Char → Option (List Char)
  | [] => none
  | c :: rest =>
    match extAfterLastDot rest with
    | some e => some e
    | none => if c = '.' then some rest else none

/-- A file name with its leading `.` (hidden-file marker) removed, so that
such a dot never counts as an extension separator. -/
def extBody (f : List Char) : List Char :=
  match f with
  | c :: rest => if c = '.' then rest else f
  | [] => f

/-- Modelled from Rust std semantics (`Path::extension`, main.rs 231-234):
`None` when the file name is empty, `.` or `..`, or contains no `.` other
than a leading one; otherwise the portion after the final `.`. -/
def pathExtension (p : String) : Option String :=
  let f := fileNameChars p.data
  if f = [] ∨ f = ['.'] ∨ f = ['.', '.'] then none
  else (extAfterLastDot (extBody f)).map fun cs => String.mk cs

/-! ## The program (main.rs 154-261) -/

/-- Modelled from the spec: the stdout of the manifest-describing
subprocess (whose behavior is outside src/) is either not syntactically
valid JSON, or some JSON document. -/
inductive Stdout
  | notJson
  | json (j : Json)

/-- `serde_json` front-end: syntactically invalid stdout is a parse error. -/
def parseStdout : Stdout → Except String Json
  | .notJson => .error "invalid JSON on subprocess stdout"
  | .json j => .ok j

/-- The observable outcome of one run of `main`: a panic (non-zero exit,
diagnostic message, no output file written), a `.dot` file write, a
renderer invocation fed the graph on stdin (`svg`/`png`), or the
"Unknown output extension" message with no write and exit status 0. -/
inductive MainOutcome
  | panic (msg : String)
  | wroteDot (path : String) (g : Graph)
  | renderedSvg (path : String) (g : Graph)
  | renderedPng (path : String) (g : Graph)
  | unknownExtension

/-- The resolved destination (main.rs 228-230): the `output` positional,
or else `<package-name>.dot`. -/
def outputPath (cli : Cli) (package : Package) : String :=
  cli.output.getD (package.name ++ ".dot")

/-- main.rs 165-261 after the manifest is parsed: build the graph (any
`unwrap` failure panics), then dispatch on the output extension, a missing
extension defaulting to `"dot"` (main.rs 231-234). -/
def runWithPackage (cli : Cli) (package : Package) : MainOutcome :=
  match buildGraph cli package with
  | .error e => .panic e
  | .ok graph =>
    let path := outputPath cli package
    let output_extension := (pathExtension path).getD "dot"
    if output_extension = "dot" then .wroteDot path graph
    else if output_extension = "svg" then .renderedSvg path graph
    else if output_extension = "png" then .renderedPng path graph
    else .unknownExtension

/-- main.rs 154-261. `cli.input.unwrap()` (line 159) panics when the
`input` positional is absent; `.output().expect(..)` (line 161) panics
when the subprocess cannot be executed; `serde_json::from_slice(..)
.unwrap()` (line 163) panics on invalid or schema-mismatching JSON. -/
def main (cli : Cli) (subprocess : Except String Stdout) : MainOutcome :=
  match cli.input with
  | none => .panic "called Option::unwrap on a None value"
  | some _ =>
    match subprocess with
    | .error e => .panic ("failed to execute process: " ++ e)
    | .ok out =>
      match parseStdout out with
      | .error e => .panic e
      | .ok j =>
        match Package.fromJson j with
        | .error e => .panic e
        | .ok package => runWithPackage cli package

/-! ## Concrete example inputs (used by counterexamples and witnesses) -/

/-- A baseline library target with empty optional fields. -/
def egTargetBase : Target :=
  { c99_name := "A", module_type := .SwiftTarget, name := "A", path := "/A",
    product_memberships := none, sources := [], target_type := .Library,
    product_dependencies := none, target_dependencies := none, resources := none }

/-- Target `A`: internal dependency `B`, product dependency `Logging`. -/
def egA : Target :=
  { egTargetBase with target_dependencies := some ["B"],
                      product_dependencies := some ["Logging"] }

/-- Target `B`: no dependencies. -/
def egB : Target := { egTargetBase with c99_name := "B", name := "B" }

/-- Test target `C` depending on `A`. -/
def egC : Target :=
  { egTargetBase with c99_name := "C", name := "C", target_type := .Test,
                      target_dependencies := some ["A"] }

/-- Library target `D` depending on the test target's name `C`. -/
def egD : Target :=
  { egTargetBase with c99_name := "D", name := "D",
                      target_dependencies := some ["C"] }

/-- A target inserting the same name `N` as both an internal dependency
and a product dependency. -/
def egDup : Target :=
  { egTargetBase with target_dependencies := some ["N"],
                      product_dependencies := some ["N"] }

/-- A target whose name is not a valid graph identifier. -/
def egBadTarget : Target := { egTargetBase with name := "bad name" }

def egCli : Cli :=
  { input := some ".", output := none,
    skip_test_targets := false, skip_product_dependencies := false }

def cliT : Cli := { egCli with skip_test_targets := true }

def cliP : Cli := { egCli with skip_product_dependencies := true }

def cliX : Cli := { egCli with output := some "out.xyz" }

/-- The spec's running scenario: package `Foo` with targets `A` and `B`. -/
def egPkg : Package :=
  { dependencies := [], manifest_display_name := "Foo", name := "Foo",
    path := "/pkg", platforms := [], products := [],
    swift_languages_versions := [], targets := [egA, egB],
    tools_version := "5.9" }

/-- The same package with the invalid-named target. -/
def egBadPkg : Package := { egPkg with targets := [egBadTarget] }

/-- The statement list the program builds for `egPkg` with no flags. -/
def egStmts : List Stmt :=
  [Stmt.node "A" (some internalAttrs),
   Stmt.node "B" (some internalAttrs), Stmt.edge "A" "B",
   Stmt.node "Logging" (some externalAttrs), Stmt.edge "A" "Logging",
   Stmt.node "B" (some internalAttrs)]

/-- The statement list for `egPkg` with `skip_product_dependencies`. -/
def egStmtsNoProd : List Stmt :=
  [Stmt.node "A" (some internalAttrs),
   Stmt.node "B" (some internalAttrs), Stmt.edge "A" "B",
   Stmt.node "B" (some internalAttrs)]

/-- The statement list for targets `[D, C]` with `skip_test_targets`. -/
def egSkipStmts : List Stmt :=
  [Stmt.node "D" (some internalAttrs),
   Stmt.node "C" (some internalAttrs), Stmt.edge "D" "C"]

/-- The statement list for the duplicate-insertion manifest `[egDup]`. -/
def egDupStmts : List Stmt :=
  [Stmt.node "A" (some internalAttrs),
   Stmt.node "N" (some internalAttrs), Stmt.edge "A" "N",
   Stmt.node "N" (some externalAttrs), Stmt.edge "A" "N"]

/-- The graph value built for `egPkg` with no flags. -/
def egGraph : Graph :=
  { graph_type := .DiGraph, strict := false, id := "Foo", stmts := egStmts }

/-- A JSON document for a target whose name is not a valid identifier. -/
def egBadTargetDoc : Json :=
  .obj [("c99name", .str "A"), ("module_type", .str "SwiftTarget"),
        ("name", .str "bad name"), ("path", .str "/A"),
        ("sources", .arr []), ("type", .str "library")]

/-- A schema-complete manifest document around a given target document. -/
def egDocWithTarget (t : Json) : Json :=
  .obj [("dependencies", .arr []),
        ("manifest_display_name", .str "Foo"),
        ("name", .str "Foo"),
        ("path", .str "/pkg"),
        ("platforms", .arr []),
        ("products", .arr []),
        ("swift_languages_versions", .arr []),
        ("targets", .arr [t]),
        ("tools_version", .str "5.9")]

/-- The manifest document that parses to `egBadPkg`. -/
def egBadDoc : Json := egDocWithTarget egBadTargetDoc

/-- A target document satisfying the whole target schema. -/
def egTargetDoc : Json :=
  .obj [("c99name", .str "A"), ("module_type", .str "SwiftTarget"),
        ("name", .str "A"), ("path", .str "/A"),
        ("sources", .arr []), ("type", .str "library")]

/-- A manifest holding only the package name and the target list. -/
def egMinimalDoc : Json := .obj [("name", .str "Foo"), ("targets", .arr [])]

/-- Remove one key from a JSON object. -/
def dropField (j : Json) (key : String) : Json :=
  match j with
  | .obj fields => .obj (fields.filter fun kv => !decide (kv.1 = key))
  | other => other

def exceptIsOk : Except String α → Bool
  | .ok _ => true
  | .error _ => false

/-! ## Helper lemmas -/

theorem id_ok_of_valid {s : String} (h : validId s = true) : Identity.id s = .ok s := by
  simp [Identity.id, h]

theorem valid_of_id_ok {s t : String} (h : Identity.id s = .ok t) :
    validId s = true ∧ t = s := by
  by_cases hv : validId s
  · refine ⟨hv, ?_⟩
    simp [Identity.id, hv] at h
    exact h.symm
  · simp [Identity.id, hv] at h

theorem countNames_append (xs ys : List String) (n : String) :
    countNames (xs ++ ys) n = countNames xs n + countNames ys n := by
  induction xs with
  | nil => simp [countNames]
  | cons x xs ih => simp [countNames, ih]; omega

theorem nodeCount_append (xs ys : List Stmt) (n : String) :
    nodeCount (xs ++ ys) n = nodeCount xs n + nodeCount ys n := by
  induction xs with
  | nil => simp [nodeCount]
  | cons x xs ih =>
    cases x with
    | node m a => simp [nodeCount, ih]; omega
    | edge a b => simp [nodeCount, ih]

/-- Successful runs of the target-dependency loop: decomposition. -/
theorem targetDepStmts_ok_cons {tn d : String} {rest : List String} {ss : List Stmt}
    (h : targetDepStmts tn (d :: rest) = .ok ss) :
    validId d = true ∧ validId tn = true ∧
      ∃ more, targetDepStmts tn rest = .ok more ∧
        ss = Stmt.node d (some internalAttrs) :: Stmt.edge tn d :: more := by
  rw [targetDepStmts] at h
  cases hx : Identity.id d with
  | error e => rw [hx] at h; cases h
  | ok did =>
    rw [hx] at h
    cases ht : Identity.id tn with
    | error e => rw [ht] at h; cases h
    | ok tid =>
      rw [ht] at h
      cases hr : targetDepStmts tn rest with
      | error e => rw [hr] at h; cases h
      | ok more =>
        rw [hr] at h
        obtain ⟨hvd, hdd⟩ := valid_of_id_ok hx
        obtain ⟨hvt, htt⟩ := valid_of_id_ok ht
        cases h
        subst hdd htt
        exact ⟨hvd, hvt, more, rfl, rfl⟩

theorem productDepStmts_ok_cons {tn p : String} {rest : List String} {ss : List Stmt}
    (h : productDepStmts tn (p :: rest) = .ok ss) :
    validId p = true ∧ validId tn = true ∧
      ∃ more, productDepStmts tn rest = .ok more ∧
        ss = Stmt.node p (some externalAttrs) :: Stmt.edge tn p :: more := by
  rw [productDepStmts] at h
  cases hx : Identity.id p with
  | error e => rw [hx] at h; cases h
  | ok pid =>
    rw [hx] at h
    cases ht : Identity.id tn with
    | error e => rw [ht] at h; cases h
    | ok tid =>
      rw [ht] at h
      cases hr : productDepStmts tn rest with
      | error e => rw [hr] at h; cases h
      | ok more =>
        rw [hr] at h
        obtain ⟨hvp, hpp⟩ := valid_of_id_ok hx
        obtain ⟨hvt, htt⟩ := valid_of_id_ok ht
        cases h
        subst hpp htt
        exact ⟨hvp, hvt, more, rfl, rfl⟩

theorem targetDepStmts_mem {tn : String} {ds : List String} {ss : List Stmt}
    (h : targetDepStmts tn ds = .ok ss) :
    ∀ d ∈ ds, Stmt.node d (some internalAttrs) ∈ ss ∧ Stmt.edge tn d ∈ ss := by
  induction ds generalizing ss with
  | nil => intro d hd; cases hd
  | cons x rest ih =>
    intro d hd
    obtain ⟨-, -, more, hmore, hss⟩ := targetDepStmts_ok_cons h
    subst hss
    rcases List.mem_cons.mp hd with hdx | hdr
    · subst hdx; exact ⟨List.mem_cons_self _ _, List.mem_cons_of_mem _ (List.mem_cons_self _ _)⟩
    · obtain ⟨h1, h2⟩ := ih hmore d hdr
      exact ⟨List.mem_cons_of_mem _ (List.mem_cons_of_mem _ h1),
             List.mem_cons_of_mem _ (List.mem_cons_of_mem _ h2)⟩

theorem productDepStmts_mem {tn : String} {ds : List String} {ss : List Stmt}
    (h : productDepStmts tn ds = .ok ss) :
    ∀ d ∈ ds, Stmt.node d (some externalAttrs) ∈ ss ∧ Stmt.edge tn d ∈ ss := by
  induction ds generalizing ss with
  | nil => intro d hd; cases hd
  | cons x rest ih =>
    intro d hd
    obtain ⟨-, -, more, hmore, hss⟩ := productDepStmts_ok_cons h
    subst hss
    rcases List.mem_cons.mp hd with hdx | hdr
    · subst hdx; exact ⟨List.mem_cons_self _ _, List.mem_cons_of_mem _ (List.mem_cons_self _ _)⟩
    · obtain ⟨h1, h2⟩ := ih hmore d hdr
      exact ⟨List.mem_cons_of_mem _ (List.mem_cons_of_mem _ h1),
             List.mem_cons_of_mem _ (List.mem_cons_of_mem _ h2)⟩

theorem targetDepStmts_valid {tn : String} {ds : List String} {ss : List Stmt}
    (h : targetDepStmts tn ds = .ok ss) : ∀ d ∈ ds, validId d = true := by
  induction ds generalizing ss with
  | nil => intro d hd; cases hd
  | cons x rest ih =>
    intro d hd
    obtain ⟨hvx, -, more, hmore, -⟩ := targetDepStmts_ok_cons h
    rcases List.mem_cons.mp hd with hdx | hdr
    · subst hdx; exact hvx
    · exact ih hmore d hdr

theorem productDepStmts_valid {tn : String} {ds : List String} {ss : List Stmt}
    (h : productDepStmts tn ds = .ok ss) : ∀ d ∈ ds, validId d = true := by
  induction ds generalizing ss with
  | nil => intro d hd; cases hd
  | cons x rest ih =>
    intro d hd
    obtain ⟨hvx, -, more, hmore, -⟩ := productDepStmts_ok_cons h
    rcases List.mem_cons.mp hd with hdx | hdr
    · subst hdx; exact hvx
    · exact ih hmore d hdr

theorem targetDepStmts_edge_src {tn : String} {ds : List String} {ss : List Stmt}
    (h : targetDepStmts tn ds = .ok ss) :
    ∀ hd tl, Stmt.edge hd tl ∈ ss → hd = tn := by
  induction ds generalizing ss with
  | nil =>
    intro hd tl hmem
    cases h
    cases hmem
  | cons x rest ih =>
    intro hd tl hmem
    obtain ⟨-, -, more, hmore, hss⟩ := targetDepStmts_ok_cons h
    subst hss
    rcases List.mem_cons.mp hmem with heq | hmem2
    · cases heq
    · rcases List.mem_cons.mp hmem2 with heq | hmem3
      · cases heq; rfl
      · exact ih hmore hd tl hmem3

theorem productDepStmts_edge_src {tn : String} {ds : List String} {ss : List Stmt}
    (h : productDepStmts tn ds = .ok ss) :
    ∀ hd tl, Stmt.edge hd tl ∈ ss → hd = tn := by
  induction ds generalizing ss with
  | nil =>
    intro hd tl hmem
    cases h
    cases hmem
  | cons x rest ih =>
    intro hd tl hmem
    obtain ⟨-, -, more, hmore, hss⟩ := productDepStmts_ok_cons h
    subst hss
    rcases List.mem_cons.mp hmem with heq | hmem2
    · cases heq
    · rcases List.mem_cons.mp hmem2 with heq | hmem3
      · cases heq; rfl
      · exact ih hmore hd tl hmem3

theorem targetDepStmts_nodeCount {tn : String} {ds : List String} {ss : List Stmt}
    (h : targetDepStmts tn ds = .ok ss) (n : String) :
    nodeCount ss n = countNames ds n := by
  induction ds generalizing ss with
  | nil => cases h; rfl
  | cons x rest ih =>
    obtain ⟨-, -, more, hmore, hss⟩ := targetDepStmts_ok_cons h
    subst hss
    simp [nodeCount, countNames, ih hmore]

theorem productDepStmts_nodeCount {tn : String} {ds : List String} {ss : List Stmt}
    (h : productDepStmts tn ds = .ok ss) (n : String) :
    nodeCount ss n = countNames ds n := by
  induction ds generalizing ss with
  | nil => cases h; rfl
  | cons x rest ih =>
    obtain ⟨-, -, more, hmore, hss⟩ := productDepStmts_ok_cons h
    subst hss
    simp [nodeCount, countNames, ih hmore]

theorem targetStmts_skip {cli : Cli} {t : Target} (h : skipped cli t = true) :
    targetStmts cli t = .ok [] := by
  simp [targetStmts, h]

theorem prodStmtsOf_skip {cli : Cli} {t : Target}
    (h : cli.skip_product_dependencies = true) : prodStmtsOf cli t = .ok [] := by
  simp [prodStmtsOf, h]

theorem prodStmtsOf_noskip {cli : Cli} {t : Target}
    (h : cli.skip_product_dependencies = false) :
    prodStmtsOf cli t = productDepStmts t.name (t.product_dependencies.getD []) := by
  simp [prodStmtsOf, h]

/-- Successful non-skipped loop iterations: decomposition. -/
theorem targetStmts_ok_elim {cli : Cli} {t : Target} {ss : List Stmt}
    (h : targetStmts cli t = .ok ss) (hns : skipped cli t = false) :
    validId t.name = true ∧
      ∃ depS prodS,
        targetDepStmts t.name (t.target_dependencies.getD []) = .ok depS ∧
        prodStmtsOf cli t = .ok prodS ∧
        ss = Stmt.node t.name (some internalAttrs) :: (depS ++ prodS) := by
  rw [targetStmts, hns] at h
  simp only [Bool.false_eq_true, if_false] at h
  cases hid : Identity.id t.name with
  | error e => rw [hid] at h; cases h
  | ok tid =>
    rw [hid] at h
    cases hdep : targetDepStmts t.name (t.target_dependencies.getD []) with
    | error e => rw [hdep] at h; cases h
    | ok depS =>
      rw [hdep] at h
      cases hprod : prodStmtsOf cli t with
      | error e => rw [hprod] at h; cases h
      | ok prodS =>
        rw [hprod] at h
        obtain ⟨hvt, htt⟩ := valid_of_id_ok hid
        cases h
        subst htt
        exact ⟨hvt, depS, prodS, rfl, rfl, rfl⟩

theorem buildStatements_ok_cons {cli : Cli} {t : Target} {ts : List Target} {ss : List Stmt}
    (h : buildStatements cli (t :: ts) = .ok ss) :
    ∃ s rest, targetStmts cli t = .ok s ∧ buildStatements cli ts = .ok rest ∧
      ss = s ++ rest := by
  rw [buildStatements] at h
  cases h1 : targetStmts cli t with
  | error e => rw [h1] at h; cases h
  | ok s =>
    rw [h1] at h
    cases h2 : buildStatements cli ts with
    | error e => rw [h2] at h; cases h
    | ok rest => rw [h2] at h; cases h; exact ⟨s, rest, rfl, rfl, rfl⟩

/-- Each processed target's statements embed into the full statement list. -/
theorem buildStatements_mem_of_target {cli : Cli} {ts : List Target} {ss : List Stmt}
    {T : Target} (h : buildStatements cli ts = .ok ss) (hT : T ∈ ts) :
    ∃ s, targetStmts cli T = .ok s ∧ ∀ x ∈ s, x ∈ ss := by
  induction ts generalizing ss with
  | nil => cases hT
  | cons t ts ih =>
    obtain ⟨s, rest, h1, h2, hss⟩ := buildStatements_ok_cons h
    subst hss
    rcases List.mem_cons.mp hT with hTt | hTr
    · subst hTt; exact ⟨s, h1, fun x hx => List.mem_append_left _ hx⟩
    · obtain ⟨s2, hs2, hsub⟩ := ih h2 hTr
      exact ⟨s2, hs2, fun x hx => List.mem_append_right _ (hsub x hx)⟩

/-- A non-skipped target's own node statement is in the output. -/
theorem mem_target_node {cli : Cli} {ts : List Target} {ss : List Stmt} {T : Target}
    (h : buildStatements cli ts = .ok ss) (hT : T ∈ ts) (hns : skipped cli T = false) :
    Stmt.node T.name (some internalAttrs) ∈ ss := by
  obtain ⟨s, hs, hsub⟩ := buildStatements_mem_of_target h hT
  obtain ⟨-, depS, prodS, -, -, hss⟩ := targetStmts_ok_elim hs hns
  subst hss
  exact hsub _ (List.mem_cons_self _ _)

/-- A non-skipped target's internal dependency yields its node and edge. -/
theorem mem_of_target_dep {cli : Cli} {ts : List Target} {ss : List Stmt} {T : Target}
    {d : String} (h : buildStatements cli ts = .ok ss) (hT : T ∈ ts)
    (hns : skipped cli T = false) (hd : d ∈ T.target_dependencies.getD []) :
    Stmt.node d (some internalAttrs) ∈ ss ∧ Stmt.edge T.name d ∈ ss := by
  obtain ⟨s, hs, hsub⟩ := buildStatements_mem_of_target h hT
  obtain ⟨-, depS, prodS, hdep, -, hss⟩ := targetStmts_ok_elim hs hns
  subst hss
  obtain ⟨h1, h2⟩ := targetDepStmts_mem hdep d hd
  exact ⟨hsub _ (List.mem_cons_of_mem _ (List.mem_append_left _ h1)),
         hsub _ (List.mem_cons_of_mem _ (List.mem_append_left _ h2))⟩

/-- With product dependencies not suppressed, a non-skipped target's
product dependency yields its externally-styled node and edge. -/
theorem mem_of_product_dep {cli : Cli} {ts : List Target} {ss : List Stmt} {T : Target}
    {p : String} (h : buildStatements cli ts = .ok ss) (hT : T ∈ ts)
    (hns : skipped cli T = false) (hps : cli.skip_product_dependencies = false)
    (hp : p ∈ T.product_dependencies.getD []) :
    Stmt.node p (some externalAttrs) ∈ ss ∧ Stmt.edge T.name p ∈ ss := by
  obtain ⟨s, hs, hsub⟩ := buildStatements_mem_of_target h hT
  obtain ⟨-, depS, prodS, -, hprod, hss⟩ := targetStmts_ok_elim hs hns
  subst hss
  rw [prodStmtsOf_noskip hps] at hprod
  obtain ⟨h1, h2⟩ := productDepStmts_mem hprod p hp
  exact ⟨hsub _ (List.mem_cons_of_mem _ (List.mem_append_right _ h1)),
         hsub _ (List.mem_cons_of_mem _ (List.mem_append_right _ h2))⟩

theorem targetStmts_valid {cli : Cli} {t : Target} {ss : List Stmt}
    (h : targetStmts cli t = .ok ss) :
    ∀ n ∈ collectedTargetNames cli t, validId n = true := by
  intro n hn
  cases hsk : skipped cli t with
  | true => rw [collectedTargetNames, hsk] at hn; simp at hn
  | false =>
    rw [collectedTargetNames, hsk] at hn
    simp only [Bool.false_eq_true, if_false] at hn
    obtain ⟨hvt, depS, prodS, hdep, hprod, -⟩ := targetStmts_ok_elim h hsk
    rcases List.mem_cons.mp hn with hne | hn2
    · subst hne; exact hvt
    · rcases List.mem_append.mp hn2 with hnd | hnp
      · exact targetDepStmts_valid hdep n hnd
      · cases hps : cli.skip_product_dependencies with
        | true => rw [hps] at hnp; simp at hnp
        | false =>
          rw [hps] at hnp
          simp only [Bool.false_eq_true, if_false] at hnp
          rw [prodStmtsOf_noskip hps] at hprod
          exact productDepStmts_valid hprod n hnp

theorem buildStatements_valid {cli : Cli} {ts : List Target} {ss : List Stmt}
    (h : buildStatements cli ts = .ok ss) :
    ∀ n ∈ collectedTargetsNames cli ts, validId n = true := by
  induction ts generalizing ss with
  | nil => intro n hn; cases hn
  | cons t ts ih =>
    intro n hn
    obtain ⟨s, rest, h1, h2, -⟩ := buildStatements_ok_cons h
    rw [collectedTargetsNames] at hn
    rcases List.mem_append.mp hn with hn1 | hn2
    · exact targetStmts_valid h1 n hn1
    · exact ih h2 n hn2

theorem buildGraph_ok_elim {cli : Cli} {p : Package} {g : Graph}
    (h : buildGraph cli p = .ok g) :
    ∃ ss, buildStatements cli p.targets = .ok ss ∧ validId p.name = true ∧
      g = { graph_type := .DiGraph, strict := false, id := p.name, stmts := ss } := by
  rw [buildGraph] at h
  cases h1 : buildStatements cli p.targets with
  | error e => rw [h1] at h; cases h
  | ok ss =>
    rw [h1] at h
    cases h2 : Identity.id p.name with
    | error e => rw [h2] at h; cases h
    | ok gid =>
      rw [h2] at h
      obtain ⟨hv, hgg⟩ := valid_of_id_ok h2
      cases h
      subst hgg
      exact ⟨ss, rfl, hv, rfl⟩

theorem buildGraph_valid {cli : Cli} {p : Package} {g : Graph}
    (h : buildGraph cli p = .ok g) :
    ∀ n ∈ collectedNames cli p, validId n = true := by
  intro n hn
  obtain ⟨ss, hss, hv, -⟩ := buildGraph_ok_elim h
  rw [collectedNames] at hn
  rcases List.mem_append.mp hn with hn1 | hn2
  · exact buildStatements_valid hss n hn1
  · rw [List.mem_singleton] at hn2; subst hn2; exact hv

/-- An invalid collected name forces the whole build to fail. -/
theorem runWithPackage_panic_of_invalid {cli : Cli} {p : Package} {n : String}
    (hn : n ∈ collectedNames cli p) (hv : validId n = false) :
    ∃ msg, runWithPackage cli p = .panic msg := by
  cases hb : buildGraph cli p with
  | error e => exact ⟨e, by rw [runWithPackage, hb]⟩
  | ok g =>
    have := buildGraph_valid hb n hn
    rw [hv] at this
    cases this

theorem targetStmts_nodeCount {cli : Cli} {t : Target} {ss : List Stmt}
    (h : targetStmts cli t = .ok ss) (n : String) :
    nodeCount ss n = countNames (collectedTargetNames cli t) n := by
  cases hsk : skipped cli t with
  | true =>
    rw [targetStmts_skip hsk] at h
    cases h
    rw [collectedTargetNames, hsk]
    rfl
  | false =>
    obtain ⟨hvt, depS, prodS, hdep, hprod, hss⟩ := targetStmts_ok_elim h hsk
    subst hss
    rw [collectedTargetNames, hsk]
    simp only [Bool.false_eq_true, if_false]
    rw [countNames, nodeCount, nodeCount_append, countNames_append,
        targetDepStmts_nodeCount hdep]
    cases hps : cli.skip_product_dependencies with
    | true =>
      rw [prodStmtsOf_skip hps] at hprod
      cases hprod
      rfl
    | false =>
      rw [prodStmtsOf_noskip hps] at hprod
      rw [productDepStmts_nodeCount hprod]
      simp

theorem buildStatements_nodeCount {cli : Cli} {ts : List Target} {ss : List Stmt}
    (h : buildStatements cli ts = .ok ss) (n : String) :
    nodeCount ss n = countNames (collectedTargetsNames cli ts) n := by
  induction ts generalizing ss with
  | nil => cases h; rfl
  | cons t ts ih =>
    obtain ⟨s, rest, h1, h2, hss⟩ := buildStatements_ok_cons h
    subst hss
    rw [collectedTargetsNames, nodeCount_append, countNames_append,
        targetStmts_nodeCount h1, ih h2]

/-- Edge statements of one loop iteration come from that target. -/
theorem targetStmts_edge_src {cli : Cli} {t : Target} {ss : List Stmt}
    (h : targetStmts cli t = .ok ss) :
    ∀ hd tl, Stmt.edge hd tl ∈ ss → hd = t.name ∧ skipped cli t = false := by
  intro hd tl hmem
  cases hsk : skipped cli t with
  | true =>
    rw [targetStmts_skip hsk] at h
    cases h
    cases hmem
  | false =>
    obtain ⟨-, depS, prodS, hdep, hprod, hss⟩ := targetStmts_ok_elim h hsk
    subst hss
    refine ⟨?_, rfl⟩
    rcases List.mem_cons.mp hmem with heq | hmem2
    · cases heq
    · rcases List.mem_append.mp hmem2 with h1 | h2
      · exact targetDepStmts_edge_src hdep hd tl h1
      · cases hps : cli.skip_product_dependencies with
        | true =>
          rw [prodStmtsOf_skip hps] at hprod
          cases hprod
          cases h2
        | false =>
          rw [prodStmtsOf_noskip hps] at hprod
          exact productDepStmts_edge_src hprod hd tl h2

/-- Every edge's source is a non-skipped target of the processed list. -/
theorem buildStatements_edge_src {cli : Cli} {ts : List Target} {ss : List Stmt}
    (h : buildStatements cli ts = .ok ss) :
    ∀ hd tl, Stmt.edge hd tl ∈ ss →
      ∃ T, T ∈ ts ∧ skipped cli T = false ∧ T.name = hd := by
  induction ts generalizing ss with
  | nil =>
    intro hd tl hmem
    cases h
    cases hmem
  | cons t ts ih =>
    intro hd tl hmem
    obtain ⟨s, rest, h1, h2, hss⟩ := buildStatements_ok_cons h
    subst hss
    rcases List.mem_append.mp hmem with hm1 | hm2
    · obtain ⟨hhd, hsk⟩ := targetStmts_edge_src h1 hd tl hm1
      exact ⟨t, List.mem_cons_self _ _, hsk, hhd.symm⟩
    · obtain ⟨T, hT, hsk, hn⟩ := ih h2 hd tl hm2
      exact ⟨T, List.mem_cons_of_mem _ hT, hsk, hn⟩

/-- With `skip_test_targets` set, the build equals the build over the
target list with the test targets filtered out. -/
theorem buildStatements_skip_test_filter {cli : Cli}
    (hst : cli.skip_test_targets = true) (ts : List Target) :
    buildStatements cli ts
      = buildStatements cli (ts.filter fun t => !decide (t.target_type = .Test)) := by
  induction ts with
  | nil => rfl
  | cons t ts ih =>
    by_cases ht : t.target_type = .Test
    · have hsk : skipped cli t = true := by simp [skipped, hst, ht]
      have hfil : (t :: ts).filter (fun t => !decide (t.target_type = .Test))
          = ts.filter (fun t => !decide (t.target_type = .Test)) := by
        simp [List.filter_cons, ht]
      rw [hfil, buildStatements, targetStmts_skip hsk, ih]
      cases hrest : buildStatements cli (ts.filter fun t => !decide (t.target_type = .Test)) with
      | error e => rfl
      | ok rest => simp
    · have hfil : (t :: ts).filter (fun t => !decide (t.target_type = .Test))
          = t :: ts.filter (fun t => !decide (t.target_type = .Test)) := by
        simp [List.filter_cons, ht]
      rw [hfil, buildStatements, buildStatements, ih]

/-- One loop iteration with products suppressed equals the iteration with
the flag clear on the target with its product list erased. -/
theorem targetStmts_erase_products {cli : Cli} {t : Target}
    (hsp : cli.skip_product_dependencies = true) :
    targetStmts { cli with skip_product_dependencies := false }
        { t with product_dependencies := none } = targetStmts cli t := by
  rw [targetStmts, targetStmts]
  have hsk : skipped { cli with skip_product_dependencies := false }
      { t with product_dependencies := none } = skipped cli t := rfl
  rw [hsk]
  cases skipped cli t with
  | true => rfl
  | false =>
    simp only [Bool.false_eq_true, if_false]
    have h1 : ({ t with product_dependencies := none } : Target).name = t.name := rfl
    have h2 : ({ t with product_dependencies := none } : Target).target_dependencies
        = t.target_dependencies := rfl
    have h3 : prodStmtsOf { cli with skip_product_dependencies := false }
        { t with product_dependencies := none } = prodStmtsOf cli t := by
      rw [prodStmtsOf_skip hsp, prodStmtsOf_noskip rfl]
      rfl
    rw [h1, h2, h3]

/-- With `skip_product_dependencies` set, the build equals the build with
the flag clear over targets whose product-dependency lists are erased. -/
theorem buildStatements_skip_products_erase {cli : Cli}
    (hsp : cli.skip_product_dependencies = true) (ts : List Target) :
    buildStatements cli ts
      = buildStatements { cli with skip_product_dependencies := false }
          (ts.map fun t => { t with product_dependencies := none }) := by
  induction ts with
  | nil => rfl
  | cons t ts ih =>
    rw [List.map_cons, buildStatements, buildStatements,
        targetStmts_erase_products hsp, ih]

theorem takeWhile_all {p : Char → Bool} {l : List Char} (h : ∀ c ∈ l, p c = true) :
    l.takeWhile p = l := by
  induction l with
  | nil => rfl
  | cons c cs ih =>
    rw [List.takeWhile_cons, h c (List.mem_cons_self _ _)]
    simp only [if_true]
    rw [ih fun x hx => h x (List.mem_cons_of_mem _ hx)]

theorem fileNameChars_all {cs : List Char} (h : ∀ c ∈ cs, c ≠ '/') :
    fileNameChars cs = cs := by
  rw [fileNameChars,
      takeWhile_all fun c hc => decide_eq_true (h c (List.mem_reverse.mp hc)),
      List.reverse_reverse]

theorem extAfterLastDot_append_dot {ys : List Char} (hys : extAfterLastDot ys = none)
    (xs : List Char) : extAfterLastDot (xs ++ '.' :: ys) = some ys := by
  induction xs with
  | nil =>
    rw [List.nil_append, extAfterLastDot, hys]
    simp
  | cons c xs ih =>
    rw [List.cons_append, extAfterLastDot, ih]

theorem isIdChar_of_head {c : Char} (h : (c.isAlpha || decide (c = '_')) = true) :
    isIdChar c = true := by
  rw [Bool.or_eq_true] at h
  rcases h with h | h
  · simp [isIdChar, Char.isAlphanum, h]
  · have : c = '_' := of_decide_eq_true h
    subst this
    decide

theorem isIdChar_ne {c : Char} (h : isIdChar c = true) : c ≠ '.' ∧ c ≠ '/' := by
  constructor
  · intro he; subst he; exact absurd h (by decide)
  · intro he; subst he; exact absurd h (by decide)

/-- A valid identifier is a nonempty run of identifier characters. -/
theorem validId_chars {s : String} (h : validId s = true) :
    ∃ c cs, s.data = c :: cs ∧ isIdChar c = true ∧ ∀ x ∈ cs, isIdChar x = true := by
  cases hdata : s.data with
  | nil =>
    rw [validId, hdata] at h
    cases h
  | cons c cs =>
    have h2 : ((c.isAlpha || decide (c = '_')) && cs.all isIdChar) = true := by
      rw [validId, hdata] at h
      exact h
    rw [Bool.and_eq_true] at h2
    refine ⟨c, cs, rfl, isIdChar_of_head h2.1, ?_⟩
    intro x hx
    have := h2.2
    rw [List.all_eq_true] at this
    exact this x hx

/-- For a valid package name, the default output `<name>.dot` has the
`dot` extension. -/
theorem pathExtension_name_dot {s : String} (h : validId s = true) :
    pathExtension (s ++ ".dot") = some "dot" := by
  obtain ⟨c, cs, hdata, hc, hcs⟩ := validId_chars h
  have hdata2 : (s ++ ".dot").data = (c :: cs) ++ ['.', 'd', 'o', 't'] := by
    rw [String.data_append, hdata]
  have hns : ∀ x ∈ (c :: cs) ++ ['.', 'd', 'o', 't'], x ≠ '/' := by
    intro x hx
    rcases List.mem_append.mp hx with hx1 | hx2
    · rcases List.mem_cons.mp hx1 with hxc | hxcs
      · subst hxc; exact (isIdChar_ne hc).2
      · exact (isIdChar_ne (hcs x hxcs)).2
    · intro he
      subst he
      simp at hx2
  have hlen : ¬((c :: cs) ++ ['.', 'd', 'o', 't'] = [] ∨
      (c :: cs) ++ ['.', 'd', 'o', 't'] = ['.'] ∨
      (c :: cs) ++ ['.', 'd', 'o', 't'] = ['.', '.']) := by
    intro hcase
    rcases hcase with h1 | h1 | h1 <;>
      · have := congrArg List.length h1
        simp at this
        try omega
  have hbody : extBody ((c :: cs) ++ ['.', 'd', 'o', 't'])
      = (c :: cs) ++ ['.', 'd', 'o', 't'] := by
    rw [List.cons_append, extBody]
    simp [(isIdChar_ne hc).1]
  have hddd : extAfterLastDot ['d', 'o', 't'] = none := by decide
  simp only [pathExtension]
  rw [hdata2, fileNameChars_all hns, if_neg hlen, hbody,
      show (c :: cs) ++ ['.', 'd', 'o', 't'] = (c :: cs) ++ '.' :: ['d', 'o', 't'] from rfl,
      extAfterLastDot_append_dot hddd]
  rfl

/-- Successful builds with an absent `output` argument write the DOT text
to `<package-name>.dot`. -/
theorem runWithPackage_default_output {cli : Cli} {p : Package} {g : Graph}
    (hout : cli.output = none) (hb : buildGraph cli p = .ok g) :
    runWithPackage cli p = .wroteDot (p.name ++ ".dot") g := by
  obtain ⟨ss, -, hvp, -⟩ := buildGraph_ok_elim hb
  have hpath : outputPath cli p = p.name ++ ".dot" := by
    rw [outputPath, hout]
    rfl
  simp [runWithPackage, hb, hpath, pathExtension_name_dot hvp]

/-- Successful builds with an explicitly given output path whose extension
is not `dot`, `svg` or `png` print the unknown-extension message. -/
theorem runWithPackage_unknown_ext {cli : Cli} {p : Package} {g : Graph}
    {path e : String} (hout : cli.output = some path) (hb : buildGraph cli p = .ok g)
    (hx : pathExtension path = some e)
    (h1 : e ≠ "dot") (h2 : e ≠ "svg") (h3 : e ≠ "png") :
    runWithPackage cli p = .unknownExtension := by
  have hpath : outputPath cli p = path := by
    rw [outputPath, hout]
    rfl
  simp [runWithPackage, hb, hpath, hx, h1, h2, h3]

theorem main_subprocess_error {cli : Cli} {i : String} (hin : cli.input = some i)
    (e : String) : main cli (.error e) = .panic ("failed to execute process: " ++ e) := by
  simp [main, hin]

theorem main_not_json {cli : Cli} {i : String} (hin : cli.input = some i) :
    main cli (.ok .notJson) = .panic "invalid JSON on subprocess stdout" := by
  simp [main, hin, parseStdout]

theorem main_parsed {cli : Cli} {i : String} {j : Json} {pkg : Package}
    (hin : cli.input = some i) (hj : Package.fromJson j = .ok pkg) :
    main cli (.ok (.json j)) = runWithPackage cli pkg := by
  simp [main, hin, parseStdout, hj]

theorem targetDepStmts_no_external {tn : String} {ds : List String} {ss : List Stmt}
    (h : targetDepStmts tn ds = .ok ss) :
    ∀ p, Stmt.node p (some externalAttrs) ∉ ss := by
  induction ds generalizing ss with
  | nil =>
    intro p hp
    cases h
    cases hp
  | cons x rest ih =>
    intro p hp
    obtain ⟨-, -, more, hmore, hss⟩ := targetDepStmts_ok_cons h
    subst hss
    rcases List.mem_cons.mp hp with he | hp2
    · simp [internalAttrs, externalAttrs] at he
    · rcases List.mem_cons.mp hp2 with he | hp3
      · simp at he
      · exact ih hmore p hp3

/-- With `skip_product_dependencies` set, no externally-styled node
statement appears anywhere in the output. -/
theorem no_external_node_of_skip {cli : Cli} {ts : List Target} {ss : List Stmt}
    (hsp : cli.skip_product_dependencies = true)
    (h : buildStatements cli ts = .ok ss) :
    ∀ p, Stmt.node p (some externalAttrs) ∉ ss := by
  induction ts generalizing ss with
  | nil =>
    intro p hp
    cases h
    cases hp
  | cons t ts ih =>
    intro p hp
    obtain ⟨s, rest, h1, h2, hss⟩ := buildStatements_ok_cons h
    subst hss
    rcases List.mem_append.mp hp with hp1 | hp2
    · cases hsk : skipped cli t with
      | true =>
        rw [targetStmts_skip hsk] at h1
        cases h1
        cases hp1
      | false =>
        obtain ⟨-, depS, prodS, hdep, hprod, hs⟩ := targetStmts_ok_elim h1 hsk
        subst hs
        rw [prodStmtsOf_skip hsp] at hprod
        cases hprod
        rcases List.mem_cons.mp hp1 with he | hp3
        · simp [internalAttrs, externalAttrs] at he
        · rw [List.append_nil] at hp3
          exact targetDepStmts_no_external hdep p hp3
    · exact ih h2 p hp2

/-! ## Claims -/

/-- C1 counterexample: node insertion is not idempotent. For the manifest
with one target `A` whose internal-dependency list and product-dependency
list both hold `N`, the built graph's statement list contains the node `N`
twice — once styled internal and once styled external — so `N` does not
appear exactly once, and re-insertion under a different classification does
add a differently-styled node statement. -/
theorem c1_counterexample :
    buildStatements egCli [egDup] = .ok egDupStmts ∧
    nodeCount egDupStmts "N" = 2 ∧
    Stmt.node "N" (some internalAttrs) ∈ egDupStmts ∧
    Stmt.node "N" (some externalAttrs) ∈ egDupStmts ∧
    internalAttrs ≠ externalAttrs :=
  ⟨rfl, rfl, by decide, by decide, by decide⟩

/-- C1 (amended): node insertion is not deduplicated. Each insertion of a
name appends one node statement styled per that insertion's
classification, so a name appears in the built statement list exactly as
many times as the loop inserts it (once as the target's own node plus once
per internal-dependency mention plus, unless suppressed, once per
product-dependency mention); first-seen styling of a unique node is left
to the downstream DOT renderer, not performed by this program. -/
theorem c1_theorem {cli : Cli} {ts : List Target} {ss : List Stmt}
    (h : buildStatements cli ts = .ok ss) (n : String) :
    nodeCount ss n = countNames (collectedTargetsNames cli ts) n :=
  buildStatements_nodeCount h n

theorem c1_witness :
    nodeCount egDupStmts "N" = countNames (collectedTargetsNames egCli [egDup]) "N" :=
  c1_theorem (show buildStatements egCli [egDup] = .ok egDupStmts from rfl) "N"

/-- C2: with `skip_test_targets` set, the build equals the build over the
target list with every `test`-kind target removed — a skipped test target
contributes no node and no outgoing edges — and a dependency of a
non-skipped target still yields its node statement even if its name
coincides with a skipped test target's name. -/
theorem c2_theorem {cli : Cli} (hst : cli.skip_test_targets = true) (ts : List Target) :
    buildStatements cli ts
        = buildStatements cli (ts.filter fun t => !decide (t.target_type = .Test)) ∧
      ∀ T ∈ ts, T.target_type ≠ .Test →
        ∀ d ∈ T.target_dependencies.getD [], ∀ ss,
          buildStatements cli ts = .ok ss →
            Stmt.node d (some internalAttrs) ∈ ss := by
  refine ⟨buildStatements_skip_test_filter hst ts, ?_⟩
  intro T hT hTT d hd ss h
  have hsk : skipped cli T = false := by simp [skipped, hTT]
  exact (mem_of_target_dep h hT hsk hd).1

theorem c2_witness :
    (buildStatements cliT [egD, egC]
        = buildStatements cliT ([egD, egC].filter fun t => !decide (t.target_type = .Test))) ∧
    Stmt.node "C" (some internalAttrs) ∈ egSkipStmts :=
  ⟨(@c2_theorem cliT rfl [egD, egC]).1,
   (@c2_theorem cliT rfl [egD, egC]).2 egD (by decide) (by decide) "C" (by decide)
     egSkipStmts (show buildStatements cliT [egD, egC] = .ok egSkipStmts from rfl)⟩

/-- C3: with `skip_product_dependencies` set the build equals the build
(flag clear) over targets whose product-dependency lists are erased —
internal nodes and edges unchanged, nothing from product lists — and no
externally-styled node statement occurs at all; with the flag clear, each
product dependency of a non-skipped target yields a node styled external
(blue instead of black, same box shape) and an edge from the target. -/
theorem c3_theorem {cli : Cli} (ts : List Target) :
    (cli.skip_product_dependencies = true →
      buildStatements cli ts
        = buildStatements { cli with skip_product_dependencies := false }
            (ts.map fun t => { t with product_dependencies := none })) ∧
    (cli.skip_product_dependencies = true →
      ∀ ss, buildStatements cli ts = .ok ss →
        ∀ p, Stmt.node p (some externalAttrs) ∉ ss) ∧
    (cli.skip_product_dependencies = false →
      ∀ T ∈ ts, skipped cli T = false →
        ∀ p ∈ T.product_dependencies.getD [], ∀ ss,
          buildStatements cli ts = .ok ss →
            Stmt.node p (some externalAttrs) ∈ ss ∧ Stmt.edge T.name p ∈ ss) ∧
    externalAttrs = [.color .Blue, .shape .Box] ∧
    internalAttrs = [.color .Black, .shape .Box] ∧
    Color.Blue ≠ Color.Black := by
  refine ⟨fun hsp => buildStatements_skip_products_erase hsp ts,
          fun hsp ss h => no_external_node_of_skip hsp h,
          ?_, rfl, rfl, by decide⟩
  intro hps T hT hsk p hp ss h
  exact mem_of_product_dep h hT hsk hps hp

theorem c3_witness :
    (buildStatements cliP [egA, egB]
        = buildStatements { cliP with skip_product_dependencies := false }
            ([egA, egB].map fun t => { t with product_dependencies := none })) ∧
    (∀ p, Stmt.node p (some externalAttrs) ∉ egStmtsNoProd) ∧
    (Stmt.node "Logging" (some externalAttrs) ∈ egStmts ∧
      Stmt.edge "A" "Logging" ∈ egStmts) :=
  ⟨((@c3_theorem cliP [egA, egB]).1 rfl),
   fun p => (@c3_theorem cliP [egA, egB]).2.1 rfl egStmtsNoProd
     (show buildStatements cliP [egA, egB] = .ok egStmtsNoProd from rfl) p,
   (@c3_theorem egCli [egA, egB]).2.2.1 rfl egA (by decide) (by decide)
     "Logging" (by decide) egStmts
     (show buildStatements egCli [egA, egB] = .ok egStmts from rfl)⟩

/-- C4: for every non-skipped target `T` and every name `d` in `T`'s
internal-dependency list, the built statement list contains the edge
`T → d` and a node for `d` styled internal, whatever the value of
`skip_product_dependencies` (the `cli` here is arbitrary). -/
theorem c4_theorem {cli : Cli} {ts : List Target} {ss : List Stmt} {T : Target}
    {d : String} (h : buildStatements cli ts = .ok ss) (hT : T ∈ ts)
    (hns : skipped cli T = false) (hd : d ∈ T.target_dependencies.getD []) :
    Stmt.edge T.name d ∈ ss ∧ Stmt.node d (some internalAttrs) ∈ ss := by
  obtain ⟨h1, h2⟩ := mem_of_target_dep h hT hns hd
  exact ⟨h2, h1⟩

theorem c4_witness :
    Stmt.edge egA.name "B" ∈ egStmtsNoProd ∧
    Stmt.node "B" (some internalAttrs) ∈ egStmtsNoProd :=
  @c4_theorem cliP [egA, egB] egStmtsNoProd egA "B"
    (show buildStatements cliP [egA, egB] = .ok egStmtsNoProd from rfl)
    (by decide) (by decide) (by decide)

/-- C5: the code, not the claim — when the `input` positional argument is
absent, `cli.input.unwrap()` (main.rs 159) panics before the subprocess
result is even consulted, instead of proceeding with the current working
directory as the spec describes. -/
theorem c5_theorem :
    main { input := none, output := none, skip_test_targets := false,
           skip_product_dependencies := false } (.error "not run")
      = .panic "called Option::unwrap on a None value" := rfl

/-- C6: the program fails fast — outcome is a panic, hence non-zero exit,
a diagnostic message and no output file — when the subprocess cannot be
executed, when its stdout is not valid JSON for the expected schema, or
when any name collected for a node, edge or graph identifier is not a
syntactically valid graph identifier. -/
theorem c6_theorem {cli : Cli} {i : String} (hin : cli.input = some i) :
    (∀ e, main cli (.error e) = .panic ("failed to execute process: " ++ e)) ∧
    (main cli (.ok .notJson) = .panic "invalid JSON on subprocess stdout") ∧
    (∀ j pkg n, Package.fromJson j = .ok pkg → n ∈ collectedNames cli pkg →
      validId n = false → ∃ msg, main cli (.ok (.json j)) = .panic msg) := by
  refine ⟨fun e => main_subprocess_error hin e, main_not_json hin, ?_⟩
  intro j pkg n hj hn hv
  obtain ⟨msg, hmsg⟩ := runWithPackage_panic_of_invalid hn hv
  exact ⟨msg, by rw [main_parsed hin hj, hmsg]⟩

theorem c6_witness :
    (main egCli (.error "enoent") = .panic "failed to execute process: enoent") ∧
    (main egCli (.ok .notJson) = .panic "invalid JSON on subprocess stdout") ∧
    (∃ msg, main egCli (.ok (.json egBadDoc)) = .panic msg) :=
  ⟨(c6_theorem (i := ".") rfl).1 "enoent",
   (c6_theorem (i := ".") rfl).2.1,
   (c6_theorem (i := ".") rfl).2.2 egBadDoc egBadPkg "bad name"
     (show Package.fromJson egBadDoc = .ok egBadPkg from rfl)
     (by decide) (by decide)⟩

/-- C7: every edge statement's source is the name of a target record that
is present in the processed target list and was not skipped; nothing
requires edge destinations to name targets (the witness instantiates the
invariant at the edge `A → Logging`, whose destination is no target). -/
theorem c7_theorem {cli : Cli} {ts : List Target} {ss : List Stmt} {hd tl : String}
    (h : buildStatements cli ts = .ok ss) (he : Stmt.edge hd tl ∈ ss) :
    ∃ T, T ∈ ts ∧ skipped cli T = false ∧ T.name = hd :=
  buildStatements_edge_src h hd tl he

theorem c7_witness :
    ∃ T, T ∈ [egA, egB] ∧ skipped egCli T = false ∧ T.name = "A" :=
  @c7_theorem egCli [egA, egB] egStmts "A" "Logging"
    (show buildStatements egCli [egA, egB] = .ok egStmts from rfl) (by decide)

/-- C8: for a successful build, an absent `output` argument makes the
destination default to `<package-name>.dot` (and the DOT text is written
there), while an explicitly given path whose extension exists and is none
of `dot`, `svg`, `png` produces the unknown-extension message — an
outcome that writes nothing and is not a failure (exit status 0). -/
theorem c8_theorem {cli : Cli} {p : Package} {g : Graph}
    (hb : buildGraph cli p = .ok g) :
    (cli.output = none → runWithPackage cli p = .wroteDot (p.name ++ ".dot") g) ∧
    (∀ path e, cli.output = some path → pathExtension path = some e →
      e ≠ "dot" → e ≠ "svg" → e ≠ "png" →
        runWithPackage cli p = .unknownExtension) :=
  ⟨fun hout => runWithPackage_default_output hout hb,
   fun _ _ hout hx h1 h2 h3 => runWithPackage_unknown_ext hout hb hx h1 h2 h3⟩

theorem c8_witness :
    runWithPackage egCli egPkg = .wroteDot "Foo.dot" egGraph ∧
    runWithPackage cliX egPkg = .unknownExtension :=
  ⟨(c8_theorem (show buildGraph egCli egPkg = .ok egGraph from rfl)).1 rfl,
   (c8_theorem (show buildGraph cliX egPkg = .ok egGraph from rfl)).2
     "out.xyz" "xyz" rfl rfl (by decide) (by decide) (by decide)⟩

/-- C9: every successfully built graph value is a directed, non-strict
graph whose identifier is the manifest's package name. -/
theorem c9_theorem {cli : Cli} {p : Package} {g : Graph}
    (hb : buildGraph cli p = .ok g) :
    g.graph_type = .DiGraph ∧ g.strict = false ∧ g.id = p.name := by
  obtain ⟨ss, -, -, hg⟩ := buildGraph_ok_elim hb
  subst hg
  exact ⟨rfl, rfl, rfl⟩

theorem c9_witness :
    egGraph.graph_type = .DiGraph ∧ egGraph.strict = false ∧ egGraph.id = "Foo" :=
  c9_theorem (show buildGraph egCli egPkg = .ok egGraph from rfl)

/-- C10: manifest parsing is strict. A document holding only the package
name and target list fails to parse and makes the program abort before
building any graph, and removing any one of the parser's other required
fields (package-level `dependencies`, `manifest_display_name`, `path`,
`platforms`, `products`, `swift_languages_versions`, `tools_version`, or a
target's `c99name`, `module_type`, `path`, `sources`, `type`) from an
otherwise schema-complete document also fails, even though the graph
transformation never reads those fields. -/
theorem c10_theorem :
    exceptIsOk (Package.fromJson (egDocWithTarget egTargetDoc)) = true ∧
    exceptIsOk (Package.fromJson egMinimalDoc) = false ∧
    main egCli (.ok (.json egMinimalDoc)) = .panic "missing field dependencies" ∧
    exceptIsOk (Package.fromJson (dropField (egDocWithTarget egTargetDoc) "dependencies")) = false ∧
    exceptIsOk (Package.fromJson (dropField (egDocWithTarget egTargetDoc) "manifest_display_name")) = false ∧
    exceptIsOk (Package.fromJson (dropField (egDocWithTarget egTargetDoc) "path")) = false ∧
    exceptIsOk (Package.fromJson (dropField (egDocWithTarget egTargetDoc) "platforms")) = false ∧
    exceptIsOk (Package.fromJson (dropField (egDocWithTarget egTargetDoc) "products")) = false ∧
    exceptIsOk (Package.fromJson (dropField (egDocWithTarget egTargetDoc) "swift_languages_versions")) = false ∧
    exceptIsOk (Package.fromJson (dropField (egDocWithTarget egTargetDoc) "tools_version")) = false ∧
    exceptIsOk (Package.fromJson (egDocWithTarget (dropField egTargetDoc "c99name"))) = false ∧
    exceptIsOk (Package.fromJson (egDocWithTarget (dropField egTargetDoc "module_type"))) = false ∧
    exceptIsOk (Package.fromJson (egDocWithTarget (dropField egTargetDoc "path"))) = false ∧
    exceptIsOk (Package.fromJson (egDocWithTarget (dropField egTargetDoc "sources"))) = false ∧
    exceptIsOk (Package.fromJson (egDocWithTarget (dropField egTargetDoc "type"))) = false :=
  ⟨rfl, rfl, rfl, rfl, rfl, rfl, rfl, rfl, rfl, rfl, rfl, rfl, rfl, rfl, rfl⟩

end SpmToGraph
